import Mathlib

/-!
Shallow embedding of the text-processing core of `src/pdf_converter_app.py`
(the SIAPE payroll PDF-to-Excel converter), together with theorems about its
section scanner, record extractor, amount parsing and aggregation policy.

The embedded code is the body of `processar_pdf_para_streamlit`, lines 42-76:
the loop over extracted text lines, the regular expression
`^(\S+)\s+(.*?)\s+(\d{1,3}(?:\.\d{3})*,\d{2})$` applied to each cleaned line,
the numeric conversion `float(valor_str.replace('.', '').replace(',', '.'))`,
and the final "no data extracted" gate.  PDF text extraction and Excel
serialization are external collaborators and are not modelled.

Strings are modelled as `List Char`.  Python's whitespace (for `str.strip`
and `\s`) is modelled by its ASCII part, and `\d` by the ASCII digits; the
repository's data only uses those.  Python's `float` on the normalized
amount string is modelled exactly, as a rational number.
-/

/-- ASCII whitespace, the relevant part of Python's `str.isspace` / `\s`. -/
def isSpaceChar (c : Char) : Bool :=
  c == ' ' || c == '\t' || c == '\n' || c == '\r' ||
  c == Char.ofNat 11 || c == Char.ofNat 12

/-- ASCII decimal digits, the relevant part of Python's `\d`. -/
def isDigitChar (c : Char) : Bool :=
  c == '0' || c == '1' || c == '2' || c == '3' || c == '4' ||
  c == '5' || c == '6' || c == '7' || c == '8' || c == '9'

/-- Numeric value of an ASCII digit character. -/
def digitVal (c : Char) : Nat :=
  if c == '0' then 0 else if c == '1' then 1 else if c == '2' then 2
  else if c == '3' then 3 else if c == '4' then 4 else if c == '5' then 5
  else if c == '6' then 6 else if c == '7' then 7 else if c == '8' then 8
  else 9

/-- The ASCII digit character for a value below 10. -/
def digitChar (n : Nat) : Char :=
  if n == 0 then '0' else if n == 1 then '1' else if n == 2 then '2'
  else if n == 3 then '3' else if n == 4 then '4' else if n == 5 then '5'
  else if n == 6 then '6' else if n == 7 then '7' else if n == 8 then '8'
  else '9'

/-- Python `line.strip()`: remove leading and trailing whitespace. -/
def stripChars (l : List Char) : List Char :=
  ((l.dropWhile isSpaceChar).reverse.dropWhile isSpaceChar).reverse

/-- Python's substring test `pat in s` on character lists: `pat` occurs
contiguously somewhere in the second argument. -/
def containsSeq (pat : List Char) : List Char → Bool
  | [] => pat.isEmpty
  | c :: rest => pat.isPrefixOf (c :: rest) || containsSeq pat rest

/-- Line 52: `'CLSF.CONTABIL' in cleaned_line and 'DENOMINACAO / RUBRICA' in cleaned_line`. -/
def isHeaderLine (cl : List Char) : Bool :=
  containsSeq "CLSF.CONTABIL".toList cl && containsSeq "DENOMINACAO / RUBRICA".toList cl

/-- Line 57, the per-line discard conditions other than `not in_data_section`:
`not cleaned_line or '---' in cleaned_line or cleaned_line.startswith('***')
 or 'SIAPE, GERENCIAL' in cleaned_line or cleaned_line.startswith('DATA:')`. -/
def discardLine (cl : List Char) : Bool :=
  cl.isEmpty || containsSeq "---".toList cl || ("***".toList.isPrefixOf cl) ||
  containsSeq "SIAPE, GERENCIAL".toList cl || ("DATA:".toList.isPrefixOf cl)

/-- Full-string match of the regex fragment `(?:\.\d{3})*,\d{2}` (the part of
the amount token after its leading digit group). -/
def amountTail : List Char → Bool
  | ',' :: a :: b :: [] => isDigitChar a && isDigitChar b
  | '.' :: a :: b :: c :: rest =>
      isDigitChar a && isDigitChar b && isDigitChar c && amountTail rest
  | _ => false

/-- Full-string match of the amount token `\d{1,3}(?:\.\d{3})*,\d{2}` (group 3
of `data_pattern`, line 44).  For a full match the leading `\d{1,3}` must
consume the entire leading digit run, which therefore has length 1 to 3. -/
def isAmount (s : List Char) : Bool :=
  decide (1 ≤ (s.takeWhile isDigitChar).length) &&
  decide ((s.takeWhile isDigitChar).length ≤ 3) &&
  amountTail (s.dropWhile isDigitChar)

/-- Match of `\s+(amount)$`: a non-empty whitespace run followed by the amount
token reaching the end.  Since the amount starts with a digit, the `\s+` here
is forced to be the maximal whitespace run. -/
def spacesThenAmount (cs : List Char) : Option (List Char) :=
  let w := cs.takeWhile isSpaceChar
  let r := cs.dropWhile isSpaceChar
  if w.isEmpty then none else if isAmount r then some r else none

/-- Match of `(.*?)\s+(amount)$` with Python's lazy preference for `.*?`:
the shortest group-2 prefix (each of whose characters must not be a newline,
as `.` does not match newlines) that is followed by whitespace and a trailing
amount token wins.  Returns (group 2, group 3). -/
def matchDescAmount : List Char → Option (List Char × List Char)
  | [] =>
    (match spacesThenAmount [] with
     | some g3 => some ([], g3)
     | none => none)
  | c :: rest =>
    (match spacesThenAmount (c :: rest) with
     | some g3 => some ([], g3)
     | none =>
       if c == '\n' then none
       else Option.map (fun p => (c :: p.1, p.2)) (matchDescAmount rest))

/-- Backtracking over the first `\s+` of the pattern (greedy, longest match
first).  `wsrev` is the still-unconsumed part of the whitespace run following
group 1, in reverse order; `t` is the text after it.  Python's engine first
lets `\s+` take the whole run, and on failure hands whitespace back, one
character at a time, to the `(.*?)\s+(amount)$` tail. -/
def matchSep1 : List Char → List Char → Option (List Char × List Char)
  | [], _ => none
  | c :: more, t =>
    (match matchDescAmount t with
     | some r => some r
     | none => matchSep1 more (c :: t))

/-- Full anchored match of `data_pattern` (line 44):
`^(\S+)\s+(.*?)\s+(\d{1,3}(?:\.\d{3})*,\d{2})$`, returning the three groups.
Group 1 (`\S+`, greedy) is forced to be the maximal leading run of
non-whitespace characters, since it must be followed by `\s+`. -/
def dataPatternMatch (cl : List Char) : Option (List Char × List Char × List Char) :=
  let g1 := cl.takeWhile (fun c => !isSpaceChar c)
  let rest := cl.dropWhile (fun c => !isSpaceChar c)
  if g1.isEmpty then none
  else
    match matchSep1 (rest.takeWhile isSpaceChar).reverse (rest.dropWhile isSpaceChar) with
    | some (g2, g3) => some (g1, g2, g3)
    | none => none

/-- Value of a big-endian ASCII digit string. -/
def digitsVal (s : List Char) : Nat :=
  s.foldl (fun a c => 10 * a + digitVal c) 0

/-- Python `float(s)` on the strings reachable here (digit strings with at
most one dot, no sign, no exponent), modelled exactly as a rational. -/
def pyFloat (s : List Char) : Option ℚ :=
  let ip := s.takeWhile (fun c => c != '.')
  let rest := s.dropWhile (fun c => c != '.')
  match rest with
  | [] => if ip.isEmpty then none
          else if ip.all isDigitChar then some ((digitsVal ip : ℚ)) else none
  | _ :: frac =>
    if ip.all isDigitChar && frac.all isDigitChar && (!ip.isEmpty || !frac.isEmpty)
    then some ((digitsVal ip : ℚ) + (digitsVal frac : ℚ) / (10 : ℚ) ^ frac.length)
    else none

/-- Line 66: `float(valor_str.replace('.', '').replace(',', '.'))`. -/
def parseAmount (s : List Char) : Option ℚ :=
  pyFloat ((s.filter (fun c => c != '.')).map (fun c => if c == ',' then '.' else c))

/-- One extracted row: `[classificacao, denominacao, valor_float]` (line 67). -/
structure PayrollRecord where
  classificacao : List Char
  denominacao : List Char
  valor : ℚ
deriving DecidableEq

/-- An apostrophe, kept out of string literals. -/
def apos : String := String.mk [Char.ofNat 39]

/-- Line 54's message. -/
def sectionMsg (n : Nat) : String :=
  "Info Linha " ++ toString n ++ ": Seção de dados iniciada."

/-- Line 69's message. -/
def warnMsg (n : Nat) (valorStr cl : List Char) : String :=
  "Aviso Linha " ++ toString n ++ ": Valor " ++ apos ++ String.mk valorStr ++ apos ++
  " inválido na linha: " ++ String.mk cl

/-- Line 46's message. -/
def procMsg : String := "--- Processando linhas do texto extraído ---"

/-- Line 72's message. -/
def noDataMsg : String :=
  "Atenção: Nenhum dado no formato esperado foi extraído após processar o texto do PDF."

/-- Line 76's message. -/
def doneMsg (k : Nat) : String :=
  "--- Processamento de texto concluído. " ++ toString k ++ " linhas de dados encontradas. ---"

/-- Lines 60-69, the RecordExtractor: match `data_pattern` against one
candidate line; on a match, convert group 3; emit at most one record and,
only on a conversion failure, the warning message. -/
def extractRecord (cl : List Char) (n : Nat) : Option PayrollRecord × List String :=
  match dataPatternMatch cl with
  | none => (none, [])
  | some (g1, g2, g3) =>
    match parseAmount g3 with
    | some v => (some ⟨g1, stripChars g2, v⟩, [])
    | none => (none, [warnMsg n g3 cl])

/-- The loop state of lines 42-47: `in_data_section`, `extracted_data`,
`info_messages` and `line_number`. -/
structure LoopState where
  inDataSection : Bool
  extractedData : List PayrollRecord
  infoMessages : List String
  lineNumber : Nat
deriving DecidableEq

/-- One iteration of the loop over `extracted_text_lines` (lines 48-69). -/
def stepLine (st : LoopState) (line : List Char) : LoopState :=
  let n := st.lineNumber + 1
  let cl := stripChars line
  if isHeaderLine cl then
    { st with lineNumber := n, inDataSection := true,
              infoMessages := st.infoMessages ++ [sectionMsg n] }
  else if !st.inDataSection || discardLine cl then
    { st with lineNumber := n }
  else
    match extractRecord cl n with
    | (some r, ds) =>
      { st with lineNumber := n, extractedData := st.extractedData ++ [r],
                infoMessages := st.infoMessages ++ ds }
    | (none, ds) =>
      { st with lineNumber := n, infoMessages := st.infoMessages ++ ds }

/-- The loop's initial state (lines 42-47). -/
def initState : LoopState :=
  { inDataSection := false, extractedData := [], infoMessages := [procMsg], lineNumber := 0 }

/-- The whole loop over the extracted text lines. -/
def processLines (ls : List (List Char)) : LoopState :=
  ls.foldl stepLine initState

/-- Outcome of the text-processing core, mirroring the function's
`(success, data-or-error, info_messages)` result shape. -/
inductive ProcResult where
  | ok (records : List PayrollRecord) (msgs : List String)
  | err (msg : String) (msgs : List String)
deriving DecidableEq

/-- Lines 48-76: run the loop, then the aggregation gate of lines 71-76:
zero extracted rows fail with the no-data message appended to the
diagnostics, otherwise the rows are returned with all diagnostics. -/
def processarTexto (ls : List (List Char)) : ProcResult :=
  let st := processLines ls
  if st.extractedData.isEmpty then .err noDataMsg (st.infoMessages ++ [noDataMsg])
  else .ok st.extractedData (st.infoMessages ++ [doneMsg st.extractedData.length])

/-- The SectionScanner view of the same loop: the candidate lines that reach
the `data_pattern.match` call at line 60, as a function of the section flag.
A header line sets the flag and is not forwarded; with the flag unset, or for
lines matching the discard conditions, nothing is forwarded; otherwise the
cleaned line is forwarded. -/
def scanLines (flag : Bool) : List (List Char) → List (List Char)
  | [] => []
  | l :: ls =>
    let cl := stripChars l
    if isHeaderLine cl then scanLines true ls
    else if !flag || discardLine cl then scanLines flag ls
    else cl :: scanLines flag ls

/-- Modelled from the spec: the locale formatting rule of §4.3/§8 ("the same
locale rule": thousands separator `.` every three digits, decimal comma, two
fractional digits).  The repository itself has no re-formatting code, so this
follows the spec's words.  Renders a number below 1000 without padding. -/
def natToChars3 (n : Nat) : List Char :=
  if n < 10 then [digitChar n]
  else if n < 100 then [digitChar (n / 10), digitChar (n % 10)]
  else [digitChar (n / 100), digitChar (n / 10 % 10), digitChar (n % 10)]

/-- A digit group of exactly three digits, zero-padded. -/
def pad3 (n : Nat) : List Char :=
  [digitChar (n / 100), digitChar (n / 10 % 10), digitChar (n % 10)]

/-- Two digits, zero-padded. -/
def pad2 (n : Nat) : List Char :=
  [digitChar (n / 10), digitChar (n % 10)]

/-- Modelled from the spec: integer part with `.` thousands separators.
Fuel-driven so that it is structurally recursive; `formatInt` supplies
enough fuel. -/
def formatIntAux : Nat → Nat → List Char
  | 0, n => natToChars3 n
  | f + 1, n => if n < 1000 then natToChars3 n
                else formatIntAux f (n / 1000) ++ '.' :: pad3 (n % 1000)

/-- Modelled from the spec: locale rendering of an integer. -/
def formatInt (n : Nat) : List Char := formatIntAux n n

/-- Modelled from the spec: locale rendering of an amount given in cents. -/
def formatCents (n : Nat) : List Char :=
  formatInt (n / 100) ++ ',' :: pad2 (n % 100)

/-- Modelled from the spec: locale rendering of the parsed amount.  On the
values produced by `parseAmount` from pattern-shaped tokens, `q * 100` is a
natural number of cents. -/
def formatAmount (q : ℚ) : List Char := formatCents (q * 100).num.toNat

/-- The amount strings whose integer part carries no superfluous leading
zero: either the leading digit is not `0`, or the integer part is exactly the
single digit `0` (the string continues with the decimal comma). -/
def canonicalLead (s : List Char) : Bool :=
  if s.head? == some '0' then s.tail.head? == some ',' else true

/-! ## Basic facts about digits and digit strings -/

theorem isDigitChar_cases (c : Char) (h : isDigitChar c = true) :
    c = '0' ∨ c = '1' ∨ c = '2' ∨ c = '3' ∨ c = '4' ∨
    c = '5' ∨ c = '6' ∨ c = '7' ∨ c = '8' ∨ c = '9' := by
  simp only [isDigitChar, Bool.or_eq_true, beq_iff_eq] at h
  tauto

theorem digitChar_digitVal (c : Char) (h : isDigitChar c = true) :
    digitChar (digitVal c) = c := by
  rcases isDigitChar_cases c h with rfl|rfl|rfl|rfl|rfl|rfl|rfl|rfl|rfl|rfl <;> rfl

theorem digitVal_le_nine (c : Char) (h : isDigitChar c = true) : digitVal c ≤ 9 := by
  rcases isDigitChar_cases c h with rfl|rfl|rfl|rfl|rfl|rfl|rfl|rfl|rfl|rfl <;> decide

theorem digitVal_pos (c : Char) (h : isDigitChar c = true) (h0 : c ≠ '0') :
    1 ≤ digitVal c := by
  rcases isDigitChar_cases c h with rfl|rfl|rfl|rfl|rfl|rfl|rfl|rfl|rfl|rfl
  · exact absurd rfl h0
  all_goals decide

theorem digit_beq_dot (c : Char) (h : isDigitChar c = true) : (c == '.') = false := by
  rcases isDigitChar_cases c h with rfl|rfl|rfl|rfl|rfl|rfl|rfl|rfl|rfl|rfl <;> decide

theorem digit_beq_comma (c : Char) (h : isDigitChar c = true) : (c == ',') = false := by
  rcases isDigitChar_cases c h with rfl|rfl|rfl|rfl|rfl|rfl|rfl|rfl|rfl|rfl <;> decide

theorem digitsVal_go (l : List Char) (i : Nat) :
    l.foldl (fun a c => 10 * a + digitVal c) i = i * 10 ^ l.length + digitsVal l := by
  induction l generalizing i with
  | nil => simp [digitsVal]
  | cons c l ih =>
    simp only [List.foldl_cons, List.length_cons, digitsVal]
    rw [ih (10 * i + digitVal c), ih (10 * 0 + digitVal c)]
    ring

theorem digitsVal_append (a b : List Char) :
    digitsVal (a ++ b) = digitsVal a * 10 ^ b.length + digitsVal b := by
  simp only [digitsVal, List.foldl_append]
  rw [digitsVal_go b (List.foldl (fun a c => 10 * a + digitVal c) 0 a)]
  rfl

theorem digitsVal_cons (c : Char) (l : List Char) :
    digitsVal (c :: l) = digitVal c * 10 ^ l.length + digitsVal l := by
  show List.foldl (fun a c => 10 * a + digitVal c) (10 * 0 + digitVal c) l = _
  rw [digitsVal_go]
  ring

theorem digitsVal_lt (l : List Char) (h : ∀ c ∈ l, isDigitChar c = true) :
    digitsVal l < 10 ^ l.length := by
  induction l with
  | nil => simp [digitsVal]
  | cons c l ih =>
    have hc : digitVal c ≤ 9 := digitVal_le_nine c (h c (by simp))
    have hl : digitsVal l < 10 ^ l.length := ih (fun x hx => h x (by simp [hx]))
    rw [digitsVal_cons, List.length_cons, pow_succ]
    calc digitVal c * 10 ^ l.length + digitsVal l
        < digitVal c * 10 ^ l.length + 10 ^ l.length := by omega
      _ = (digitVal c + 1) * 10 ^ l.length := by ring
      _ ≤ 10 * 10 ^ l.length := by
          have h10 : digitVal c + 1 ≤ 10 := by omega
          exact Nat.mul_le_mul_right _ h10
      _ = 10 ^ l.length * 10 := by ring

theorem digitsVal_ge_one (l : List Char) (hne : l ≠ [])
    (hd : ∀ c ∈ l, isDigitChar c = true) (h0 : l.head? ≠ some '0') :
    1 ≤ digitsVal l := by
  rcases l with _ | ⟨a, l⟩
  · exact absurd rfl hne
  · have ha : 1 ≤ digitVal a := by
      apply digitVal_pos a (hd a (by simp))
      intro hEq
      exact h0 (by simp [hEq])
    rw [digitsVal_cons]
    have : 1 ≤ digitVal a * 10 ^ l.length :=
      Nat.one_le_iff_ne_zero.mpr (Nat.mul_ne_zero (by omega) (Nat.pos_iff_ne_zero.mp (Nat.pos_pow_of_pos _ (by omega))))
    omega

/-! ## The formatter reproduces digit groups -/

theorem pad3_digitsVal (g : List Char) (hlen : g.length = 3)
    (hd : ∀ c ∈ g, isDigitChar c = true) : pad3 (digitsVal g) = g := by
  obtain ⟨a, b, c, rfl⟩ := List.length_eq_three.mp hlen
  have ha : isDigitChar a = true := hd a (by simp)
  have hb : isDigitChar b = true := hd b (by simp)
  have hc : isDigitChar c = true := hd c (by simp)
  have hva := digitVal_le_nine a ha
  have hvb := digitVal_le_nine b hb
  have hvc := digitVal_le_nine c hc
  have hv : digitsVal [a, b, c] = 100 * digitVal a + 10 * digitVal b + digitVal c := by
    rw [digitsVal_cons, digitsVal_cons, digitsVal_cons]
    simp [digitsVal]
    ring
  rw [pad3, hv]
  have e1 : (100 * digitVal a + 10 * digitVal b + digitVal c) / 100 = digitVal a := by omega
  have e2 : (100 * digitVal a + 10 * digitVal b + digitVal c) / 10 % 10 = digitVal b := by omega
  have e3 : (100 * digitVal a + 10 * digitVal b + digitVal c) % 10 = digitVal c := by omega
  rw [e1, e2, e3, digitChar_digitVal a ha, digitChar_digitVal b hb, digitChar_digitVal c hc]

theorem pad2_digitsVal (g : List Char) (hlen : g.length = 2)
    (hd : ∀ c ∈ g, isDigitChar c = true) : pad2 (digitsVal g) = g := by
  obtain ⟨a, b, rfl⟩ := List.length_eq_two.mp hlen
  have ha : isDigitChar a = true := hd a (by simp)
  have hb : isDigitChar b = true := hd b (by simp)
  have hva := digitVal_le_nine a ha
  have hvb := digitVal_le_nine b hb
  have hv : digitsVal [a, b] = 10 * digitVal a + digitVal b := by
    rw [digitsVal_cons, digitsVal_cons]
    simp [digitsVal]
    ring
  rw [pad2, hv]
  have e1 : (10 * digitVal a + digitVal b) / 10 = digitVal a := by omega
  have e2 : (10 * digitVal a + digitVal b) % 10 = digitVal b := by omega
  rw [e1, e2, digitChar_digitVal a ha, digitChar_digitVal b hb]

theorem natToChars3_digitsVal (L : List Char) (h1 : 1 ≤ L.length) (h3 : L.length ≤ 3)
    (hd : ∀ c ∈ L, isDigitChar c = true)
    (hlead : L.head? ≠ some '0' ∨ L = ['0']) :
    natToChars3 (digitsVal L) = L := by
  interval_cases h : L.length
  · obtain ⟨a, rfl⟩ := List.length_eq_one.mp h
    have ha : isDigitChar a = true := hd a (by simp)
    have hva := digitVal_le_nine a ha
    have hv : digitsVal [a] = digitVal a := by simp [digitsVal]
    rw [hv, natToChars3, if_pos (by omega), digitChar_digitVal a ha]
  · obtain ⟨a, b, rfl⟩ := List.length_eq_two.mp h
    have ha : isDigitChar a = true := hd a (by simp)
    have hb : isDigitChar b = true := hd b (by simp)
    have hva := digitVal_le_nine a ha
    have hvb := digitVal_le_nine b hb
    have ha0 : a ≠ '0' := by
      rcases hlead with hl | hl
      · intro hEq; exact hl (by simp [hEq])
      · exact absurd hl (by simp)
    have hpa := digitVal_pos a ha ha0
    have hv : digitsVal [a, b] = 10 * digitVal a + digitVal b := by
      rw [digitsVal_cons, digitsVal_cons]
      simp [digitsVal]
      ring
    rw [hv, natToChars3, if_neg (by omega), if_pos (by omega)]
    have e1 : (10 * digitVal a + digitVal b) / 10 = digitVal a := by omega
    have e2 : (10 * digitVal a + digitVal b) % 10 = digitVal b := by omega
    rw [e1, e2, digitChar_digitVal a ha, digitChar_digitVal b hb]
  · obtain ⟨a, b, c, rfl⟩ := List.length_eq_three.mp h
    have ha : isDigitChar a = true := hd a (by simp)
    have hb : isDigitChar b = true := hd b (by simp)
    have hc : isDigitChar c = true := hd c (by simp)
    have hva := digitVal_le_nine a ha
    have hvb := digitVal_le_nine b hb
    have hvc := digitVal_le_nine c hc
    have ha0 : a ≠ '0' := by
      rcases hlead with hl | hl
      · intro hEq; exact hl (by simp [hEq])
      · exact absurd hl (by simp)
    have hpa := digitVal_pos a ha ha0
    have hv : digitsVal [a, b, c] = 100 * digitVal a + 10 * digitVal b + digitVal c := by
      rw [digitsVal_cons, digitsVal_cons, digitsVal_cons]
      simp [digitsVal]
      ring
    rw [hv, natToChars3, if_neg (by omega), if_neg (by omega)]
    have e1 : (100 * digitVal a + 10 * digitVal b + digitVal c) / 100 = digitVal a := by omega
    have e2 : (100 * digitVal a + 10 * digitVal b + digitVal c) / 10 % 10 = digitVal b := by omega
    have e3 : (100 * digitVal a + 10 * digitVal b + digitVal c) % 10 = digitVal c := by omega
    rw [e1, e2, e3, digitChar_digitVal a ha, digitChar_digitVal b hb, digitChar_digitVal c hc]

theorem formatIntAux_fuel (f : Nat) : ∀ (g n : Nat), n ≤ f → n ≤ g →
    formatIntAux f n = formatIntAux g n := by
  induction f with
  | zero =>
    intro g n hf hg
    have hn : n = 0 := by omega
    subst hn
    cases g with
    | zero => rfl
    | succ g => simp [formatIntAux]
  | succ f ih =>
    intro g n hf hg
    cases g with
    | zero =>
      have hn : n = 0 := by omega
      subst hn
      simp [formatIntAux]
    | succ g =>
      simp only [formatIntAux]
      by_cases hlt : n < 1000
      · simp [hlt]
      · simp only [if_neg hlt]
        have hrec : n / 1000 ≤ f := by
          have := Nat.div_lt_self (by omega : 0 < n) (by omega : 1 < 1000)
          omega
        have hrec2 : n / 1000 ≤ g := by
          have := Nat.div_lt_self (by omega : 0 < n) (by omega : 1 < 1000)
          omega
        rw [ih g (n / 1000) hrec hrec2]

theorem formatInt_small (n : Nat) (h : n < 1000) : formatInt n = natToChars3 n := by
  cases n with
  | zero => rfl
  | succ m => simp [formatInt, formatIntAux, h]

theorem formatInt_big (n : Nat) (h : 1000 ≤ n) :
    formatInt n = formatInt (n / 1000) ++ '.' :: pad3 (n % 1000) := by
  rcases n with _ | m
  · omega
  · show formatIntAux (m + 1) (m + 1) = _
    simp only [formatIntAux, if_neg (by omega : ¬ m + 1 < 1000)]
    have hd : (m + 1) / 1000 ≤ m := by
      have := Nat.div_lt_self (by omega : 0 < m + 1) (by omega : 1 < 1000)
      omega
    rw [formatIntAux_fuel m ((m + 1) / 1000) ((m + 1) / 1000) hd (le_refl _)]
    rfl

theorem formatInt_groups (gs : List (List Char)) (L : List Char)
    (hL1 : 1 ≤ L.length) (hL3 : L.length ≤ 3) (hLd : ∀ c ∈ L, isDigitChar c = true)
    (hgs : ∀ g ∈ gs, g.length = 3 ∧ ∀ c ∈ g, isDigitChar c = true)
    (hlead : L.head? ≠ some '0' ∨ (L = ['0'] ∧ gs = [])) :
    formatInt (digitsVal (L ++ gs.flatMap id)) = L ++ gs.flatMap (fun g => '.' :: g) := by
  revert hgs hlead
  induction gs using List.reverseRecOn with
  | nil =>
    intro hgs hlead
    simp only [List.flatMap_nil, List.append_nil]
    have hlt : digitsVal L < 1000 := by
      have h := digitsVal_lt L hLd
      have h2 : (10:ℕ) ^ L.length ≤ 10 ^ 3 := Nat.pow_le_pow_right (by omega) hL3
      have h3 : (10:ℕ) ^ 3 = 1000 := by norm_num
      omega
    rw [formatInt_small _ hlt]
    apply natToChars3_digitsVal L hL1 hL3 hLd
    rcases hlead with h | h
    · exact Or.inl h
    · exact Or.inr h.1
  | append_singleton gs g ih =>
    intro hgs hlead
    have hg := hgs g (by simp)
    have hgs' : ∀ x ∈ gs, x.length = 3 ∧ ∀ c ∈ x, isDigitChar c = true :=
      fun x hx => hgs x (by simp [hx])
    have hlead' : L.head? ≠ some '0' := by
      rcases hlead with h | h
      · exact h
      · exact absurd h.2 (by simp)
    have hLne : L ≠ [] := by
      intro hEq
      rw [hEq] at hL1
      simp at hL1
    have hMd : ∀ c ∈ L ++ gs.flatMap id, isDigitChar c = true := by
      intro c hc
      rcases List.mem_append.mp hc with hc | hc
      · exact hLd c hc
      · obtain ⟨x, hx, hcx⟩ := List.mem_flatMap.mp hc
        exact (hgs' x hx).2 c hcx
    have hMpos : 1 ≤ digitsVal (L ++ gs.flatMap id) := by
      apply digitsVal_ge_one _ (by simp [hLne]) hMd
      rcases L with _ | ⟨a, L'⟩
      · exact absurd rfl hLne
      · simpa using hlead'
    have hvg : digitsVal g < 1000 := by
      have h := digitsVal_lt g hg.2
      rw [hg.1] at h
      norm_num at h
      exact h
    have hsplit : L ++ (gs ++ [g]).flatMap id = (L ++ gs.flatMap id) ++ g := by
      simp [List.flatMap_append]
    rw [hsplit]
    have hval : digitsVal ((L ++ gs.flatMap id) ++ g) =
        digitsVal (L ++ gs.flatMap id) * 1000 + digitsVal g := by
      rw [digitsVal_append, hg.1]
      norm_num
    rw [hval]
    rw [formatInt_big _ (by omega)]
    rw [show (digitsVal (L ++ gs.flatMap id) * 1000 + digitsVal g) / 1000 =
        digitsVal (L ++ gs.flatMap id) from by omega]
    rw [show (digitsVal (L ++ gs.flatMap id) * 1000 + digitsVal g) % 1000 =
        digitsVal g from by omega]
    rw [ih hgs' (Or.inl hlead'), pad3_digitsVal g hg.1 hg.2]
    simp [List.flatMap_append]

/-! ## Decomposition of the amount-token shape -/

theorem amountTail_decomp_aux (n : Nat) : ∀ s : List Char, s.length ≤ n →
    amountTail s = true →
    ∃ (gs : List (List Char)) (F : List Char),
      s = gs.flatMap (fun g => '.' :: g) ++ ',' :: F ∧
      (∀ g ∈ gs, g.length = 3 ∧ ∀ c ∈ g, isDigitChar c = true) ∧
      F.length = 2 ∧ (∀ c ∈ F, isDigitChar c = true) := by
  induction n with
  | zero =>
    intro s hlen h
    have hs : s = [] := List.eq_nil_of_length_eq_zero (by omega)
    subst hs
    simp [amountTail] at h
  | succ n ih =>
    intro s hlen h
    rw [amountTail.eq_def] at h
    split at h
    · rename_i a b
      refine ⟨[], [a, b], by simp, by simp, by simp, ?_⟩
      simp only [Bool.and_eq_true] at h
      intro c hc
      have hc2 : c = a ∨ c = b := by simpa using hc
      rcases hc2 with rfl | rfl
      · exact h.1
      · exact h.2
    · rename_i a b c rest
      simp only [Bool.and_eq_true] at h
      obtain ⟨⟨⟨ha, hb⟩, hc⟩, hrest⟩ := h
      have hlen' : rest.length ≤ n := by
        simp only [List.length_cons] at hlen
        omega
      obtain ⟨gs, F, hEq, hgs, hF2, hFd⟩ := ih rest hlen' hrest
      refine ⟨[a, b, c] :: gs, F, ?_, ?_, hF2, hFd⟩
      · simp [hEq]
      · intro g hg
        rcases List.mem_cons.mp hg with rfl | hg
        · constructor
          · rfl
          · intro x hx
            have hx2 : x = a ∨ x = b ∨ x = c := by simpa using hx
            rcases hx2 with rfl | rfl | rfl
            · exact ha
            · exact hb
            · exact hc
        · exact hgs g hg
    · exact absurd h (by simp)

theorem isAmount_decomp (s : List Char) (h : isAmount s = true) :
    ∃ (L : List Char) (gs : List (List Char)) (F : List Char),
      s = L ++ gs.flatMap (fun g => '.' :: g) ++ ',' :: F ∧
      1 ≤ L.length ∧ L.length ≤ 3 ∧ (∀ c ∈ L, isDigitChar c = true) ∧
      (∀ g ∈ gs, g.length = 3 ∧ ∀ c ∈ g, isDigitChar c = true) ∧
      F.length = 2 ∧ (∀ c ∈ F, isDigitChar c = true) := by
  simp only [isAmount, Bool.and_eq_true, decide_eq_true_eq] at h
  obtain ⟨⟨h1, h3⟩, htail⟩ := h
  obtain ⟨gs, F, hEq, hgs, hF2, hFd⟩ :=
    amountTail_decomp_aux (s.dropWhile isDigitChar).length (s.dropWhile isDigitChar)
      (le_refl _) htail
  refine ⟨s.takeWhile isDigitChar, gs, F, ?_, h1, h3, ?_, hgs, hF2, hFd⟩
  · rw [List.append_assoc, ← hEq, List.takeWhile_append_dropWhile]
  · intro c hc
    have := List.all_takeWhile (p := isDigitChar) (l := s)
    rw [List.all_eq_true] at this
    exact this c hc

/-! ## Evaluation of the numeric conversion on pattern-shaped tokens -/

theorem digit_bne_dot (c : Char) (h : isDigitChar c = true) : (c != '.') = true := by
  simp [bne, digit_beq_dot c h]

theorem takeWhile_all_append (p : Char → Bool) (a : List Char) (c : Char) (b : List Char)
    (ha : ∀ x ∈ a, p x = true) (hc : p c = false) :
    (a ++ c :: b).takeWhile p = a ∧ (a ++ c :: b).dropWhile p = c :: b := by
  induction a with
  | nil => simp [List.takeWhile_cons, List.dropWhile_cons, hc]
  | cons x a ih =>
    have hx : p x = true := ha x (by simp)
    have ih2 := ih (fun y hy => ha y (by simp [hy]))
    simp [List.takeWhile_cons, List.dropWhile_cons, hx, ih2.1, ih2.2]

theorem filter_dots_flatMap (gs : List (List Char))
    (hgs : ∀ g ∈ gs, ∀ c ∈ g, isDigitChar c = true) :
    (gs.flatMap (fun g => '.' :: g)).filter (fun c => c != '.') = gs.flatMap id := by
  induction gs with
  | nil => simp
  | cons g gs ih =>
    simp only [List.flatMap_cons, List.filter_append, List.filter_cons]
    rw [if_neg (by decide)]
    rw [List.filter_eq_self.mpr (fun a ha => digit_bne_dot a (hgs g (by simp) a ha))]
    rw [ih (fun x hx c hc => hgs x (by simp [hx]) c hc)]
    rfl

theorem map_comma_append (A F : List Char)
    (hA : ∀ c ∈ A, isDigitChar c = true) (hF : ∀ c ∈ F, isDigitChar c = true) :
    (A ++ ',' :: F).map (fun c => if c == ',' then '.' else c) = A ++ '.' :: F := by
  rw [List.map_append, List.map_cons]
  have hmapA : A.map (fun c => if c == ',' then '.' else c) = A := by
    have h := List.map_congr_left (l := A) (f := fun c => if c == ',' then '.' else c)
      (g := id) (fun a ha => by simp [digit_beq_comma a (hA a ha)])
    rw [h, List.map_id]
  have hmapF : F.map (fun c => if c == ',' then '.' else c) = F := by
    have h := List.map_congr_left (l := F) (f := fun c => if c == ',' then '.' else c)
      (g := id) (fun a ha => by simp [digit_beq_comma a (hF a ha)])
    rw [h, List.map_id]
  rw [hmapA, hmapF]
  rfl

theorem parseAmount_shape (L : List Char) (gs : List (List Char)) (F : List Char)
    (hL1 : 1 ≤ L.length) (hLd : ∀ c ∈ L, isDigitChar c = true)
    (hgs : ∀ g ∈ gs, g.length = 3 ∧ ∀ c ∈ g, isDigitChar c = true)
    (hF2 : F.length = 2) (hFd : ∀ c ∈ F, isDigitChar c = true) :
    parseAmount (L ++ gs.flatMap (fun g => '.' :: g) ++ ',' :: F) =
      some ((digitsVal (L ++ gs.flatMap id) : ℚ) + (digitsVal F : ℚ) / 100) := by
  have hLJd : ∀ c ∈ L ++ gs.flatMap id, isDigitChar c = true := by
    intro c hc
    rcases List.mem_append.mp hc with hc | hc
    · exact hLd c hc
    · obtain ⟨x, hx, hcx⟩ := List.mem_flatMap.mp hc
      exact (hgs x hx).2 c hcx
  have hfil : (L ++ gs.flatMap (fun g => '.' :: g) ++ ',' :: F).filter (fun c => c != '.') =
      (L ++ gs.flatMap id) ++ ',' :: F := by
    rw [List.filter_append, List.filter_append]
    rw [List.filter_eq_self.mpr (fun a ha => digit_bne_dot a (hLd a ha))]
    rw [filter_dots_flatMap gs (fun x hx c hc => (hgs x hx).2 c hc)]
    rw [List.filter_cons, if_pos (by decide)]
    rw [List.filter_eq_self.mpr (fun a ha => digit_bne_dot a (hFd a ha))]
  have hmap := map_comma_append (L ++ gs.flatMap id) F hLJd hFd
  have htw := takeWhile_all_append (fun c => c != '.') (L ++ gs.flatMap id) '.' F
    (fun x hx => digit_bne_dot x (hLJd x hx)) (by decide)
  have hne : (L ++ gs.flatMap id) ≠ [] := by
    intro hEq
    rcases List.append_eq_nil.mp hEq with ⟨h1, _⟩
    rw [h1] at hL1
    simp at hL1
  unfold parseAmount
  rw [hfil, hmap]
  unfold pyFloat
  simp only [htw.1, htw.2]
  have hcond : ((L ++ gs.flatMap id).all isDigitChar && F.all isDigitChar &&
      (!(L ++ gs.flatMap id).isEmpty || !F.isEmpty)) = true := by
    have h1 : (L ++ gs.flatMap id).all isDigitChar = true :=
      List.all_eq_true.mpr (fun x hx => hLJd x hx)
    have h2 : F.all isDigitChar = true := List.all_eq_true.mpr (fun x hx => hFd x hx)
    have h3 : (L ++ gs.flatMap id).isEmpty = false := List.isEmpty_eq_false.mpr hne
    rw [h1, h2, h3]
    rfl
  rw [if_pos hcond]
  rw [hF2]
  norm_num

theorem canonicalLead_decomp (L : List Char) (gs : List (List Char)) (F : List Char)
    (hL1 : 1 ≤ L.length) (hLd : ∀ c ∈ L, isDigitChar c = true)
    (h : canonicalLead (L ++ gs.flatMap (fun g => '.' :: g) ++ ',' :: F) = true) :
    L.head? ≠ some '0' ∨ (L = ['0'] ∧ gs = []) := by
  rcases L with _ | ⟨a, L'⟩
  · simp at hL1
  · by_cases ha : a = '0'
    · subst ha
      have h' : (L' ++ gs.flatMap (fun g => '.' :: g) ++ ',' :: F).head? = some ',' := by
        unfold canonicalLead at h
        simp only [List.cons_append, List.head?_cons] at h
        rw [if_pos (by rfl)] at h
        simpa using h
      rcases L' with _ | ⟨b, L''⟩
      · rcases gs with _ | ⟨g, gs'⟩
        · exact Or.inr ⟨rfl, rfl⟩
        · exfalso
          simp at h'
      · exfalso
        have hb : isDigitChar b = true := hLd b (by simp)
        simp only [List.cons_append, List.head?_cons, Option.some.injEq] at h'
        rw [h'] at hb
        exact absurd hb (by decide)
    · exact Or.inl (by simp [ha])

theorem pyFloat_nonneg (s : List Char) (q : ℚ) (h : pyFloat s = some q) : 0 ≤ q := by
  simp only [pyFloat] at h
  split at h
  · split at h
    · exact absurd h (by simp)
    · split at h
      · injection h with h
        rw [← h]
        positivity
      · exact absurd h (by simp)
  · split at h
    · injection h with h
      rw [← h]
      positivity
    · exact absurd h (by simp)

theorem parseAmount_nonneg (s : List Char) (q : ℚ) (h : parseAmount s = some q) : 0 ≤ q :=
  pyFloat_nonneg _ q h

/-! ## Structure of successful pattern matches -/

theorem spacesThenAmount_eq (cs g3 : List Char) (h : spacesThenAmount cs = some g3) :
    ∃ w, cs = w ++ g3 ∧ w ≠ [] ∧ (∀ c ∈ w, isSpaceChar c = true) ∧ isAmount g3 = true := by
  simp only [spacesThenAmount] at h
  split at h
  · exact absurd h (by simp)
  · split at h
    · injection h with h
      subst h
      refine ⟨cs.takeWhile isSpaceChar, ?_, ?_, ?_, by assumption⟩
      · rw [List.takeWhile_append_dropWhile]
      · rename_i hne _
        simpa using hne
      · intro c hc
        have hall := List.all_takeWhile (p := isSpaceChar) (l := cs)
        rw [List.all_eq_true] at hall
        exact hall c hc
    · exact absurd h (by simp)

theorem matchDescAmount_eq : ∀ (cs g2 g3 : List Char),
    matchDescAmount cs = some (g2, g3) →
    ∃ w, cs = g2 ++ w ++ g3 ∧ w ≠ [] ∧ (∀ c ∈ w, isSpaceChar c = true) ∧
      isAmount g3 = true := by
  intro cs
  induction cs with
  | nil =>
    intro g2 g3 h
    simp [matchDescAmount, spacesThenAmount] at h
  | cons c rest ih =>
    intro g2 g3 h
    simp only [matchDescAmount] at h
    rcases hs : spacesThenAmount (c :: rest) with _ | a
    · rw [hs] at h
      simp only at h
      split at h
      · exact absurd h (by simp)
      · rw [Option.map_eq_some'] at h
        obtain ⟨⟨p1, p2⟩, hr, hpq⟩ := h
        rw [Prod.mk.injEq] at hpq
        obtain ⟨rfl, rfl⟩ := hpq
        obtain ⟨w, hw, hwne, hws, hAm⟩ := ih p1 p2 hr
        refine ⟨w, ?_, hwne, hws, hAm⟩
        rw [hw]
        simp
    · rw [hs] at h
      simp only at h
      injection h with h
      rw [Prod.mk.injEq] at h
      obtain ⟨rfl, rfl⟩ := h
      obtain ⟨w, hw, hwne, hws, hAm⟩ := spacesThenAmount_eq (c :: rest) a hs
      exact ⟨w, by simpa using hw, hwne, hws, hAm⟩

theorem matchSep1_eq : ∀ (wsrev t g2 g3 : List Char),
    matchSep1 wsrev t = some (g2, g3) →
    ∃ s1 push, s1 ++ push = wsrev.reverse ∧ s1 ≠ [] ∧
      matchDescAmount (push ++ t) = some (g2, g3) := by
  intro wsrev
  induction wsrev with
  | nil =>
    intro t g2 g3 h
    simp [matchSep1] at h
  | cons c more ih =>
    intro t g2 g3 h
    simp only [matchSep1] at h
    rcases hd : matchDescAmount t with _ | r
    · rw [hd] at h
      simp only at h
      obtain ⟨s1, push, hsp, hs1ne, hmda⟩ := ih (c :: t) g2 g3 h
      refine ⟨s1, push ++ [c], ?_, hs1ne, ?_⟩
      · rw [← List.append_assoc, hsp, List.reverse_cons]
      · rw [List.append_assoc]
        simpa using hmda
    · rw [hd] at h
      simp only at h
      injection h with h
      subst h
      refine ⟨(c :: more).reverse, [], by simp, by simp, ?_⟩
      simpa using hd

theorem dataPatternMatch_eq (cl g1 g2 g3 : List Char)
    (h : dataPatternMatch cl = some (g1, g2, g3)) :
    ∃ s1 w, cl = g1 ++ s1 ++ g2 ++ w ++ g3 ∧ g1 ≠ [] ∧
      (∀ c ∈ g1, isSpaceChar c = false) ∧ s1 ≠ [] ∧
      (∀ c ∈ s1, isSpaceChar c = true) ∧ w ≠ [] ∧
      (∀ c ∈ w, isSpaceChar c = true) ∧ isAmount g3 = true := by
  simp only [dataPatternMatch] at h
  split at h
  · exact absurd h (by simp)
  · rename_i hg1ne
    split at h
    · rename_i hp a b heq
      injection h with h
      rw [Prod.mk.injEq] at h
      obtain ⟨rfl, h⟩ := h
      rw [Prod.mk.injEq] at h
      obtain ⟨rfl, rfl⟩ := h
      obtain ⟨s1, push, hsp, hs1ne, hmda⟩ := matchSep1_eq _ _ _ _ heq
      rw [List.reverse_reverse] at hsp
      obtain ⟨w, hw, hwne, hws, hAm⟩ := matchDescAmount_eq _ _ _ hmda
      refine ⟨s1, w, ?_, by simpa using hg1ne, ?_, hs1ne, ?_, hwne, hws, hAm⟩
      · have hcl : cl = cl.takeWhile (fun c => !isSpaceChar c) ++
            cl.dropWhile (fun c => !isSpaceChar c) :=
          (List.takeWhile_append_dropWhile _ _).symm
        have hrest : cl.dropWhile (fun c => !isSpaceChar c) =
            (s1 ++ push) ++
              (cl.dropWhile (fun c => !isSpaceChar c)).dropWhile isSpaceChar := by
          rw [hsp]
          exact (List.takeWhile_append_dropWhile _ _).symm
        conv_lhs => rw [hcl, hrest]
        simp only [List.append_assoc] at hw ⊢
        rw [hw]
      · intro c hc
        have hall := List.all_takeWhile (p := fun c => !isSpaceChar c) (l := cl)
        rw [List.all_eq_true] at hall
        have := hall c hc
        simpa using this
      · intro c hc
        have hmem : c ∈ (cl.dropWhile (fun c => !isSpaceChar c)).takeWhile isSpaceChar := by
          rw [← hsp]
          exact List.mem_append_left _ hc
        have hall := List.all_takeWhile (p := isSpaceChar)
          (l := cl.dropWhile (fun c => !isSpaceChar c))
        rw [List.all_eq_true] at hall
        exact hall c hmem
    · exact absurd h (by simp)

theorem isAmount_chars (s : List Char) (h : isAmount s = true) :
    ∀ c ∈ s, isDigitChar c = true ∨ c = '.' ∨ c = ',' := by
  obtain ⟨L, gs, F, rfl, hL1, hL3, hLd, hgs, hF2, hFd⟩ := isAmount_decomp s h
  intro c hc
  rcases List.mem_append.mp hc with hc | hc
  · rcases List.mem_append.mp hc with hc | hc
    · exact Or.inl (hLd c hc)
    · obtain ⟨g, hg, hcg⟩ := List.mem_flatMap.mp hc
      rcases List.mem_cons.mp hcg with rfl | hcg
      · exact Or.inr (Or.inl rfl)
      · exact Or.inl ((hgs g hg).2 c hcg)
  · rcases List.mem_cons.mp hc with rfl | hc
    · exact Or.inr (Or.inr rfl)
    · exact Or.inl (hFd c hc)

theorem minus_no_match (xs t : List Char) (ht : ∀ c ∈ t, isSpaceChar c = false) :
    dataPatternMatch (xs ++ '-' :: t) = none := by
  rcases hm : dataPatternMatch (xs ++ '-' :: t) with _ | ⟨g1, g2, g3⟩
  · rfl
  · exfalso
    obtain ⟨s1, w, hcl, hg1ne, hg1s, hs1ne, hs1, hwne, hw, hAm⟩ :=
      dataPatternMatch_eq _ _ _ _ hm
    have hnominus : '-' ∉ g3 := by
      intro hmem
      rcases isAmount_chars g3 hAm '-' hmem with hd | hd | hd
      · exact absurd hd (by decide)
      · exact absurd hd (by decide)
      · exact absurd hd (by decide)
    have hsuf1 : g3 <:+ (xs ++ '-' :: t) := ⟨g1 ++ s1 ++ g2 ++ w, hcl.symm⟩
    have hsufm : ('-' :: t) <:+ (xs ++ '-' :: t) := ⟨xs, rfl⟩
    rcases List.suffix_or_suffix_of_suffix hsuf1 hsufm with hc | hc
    · rcases List.suffix_cons_iff.mp hc with hEq | hc'
      · exact hnominus (hEq ▸ (by simp : '-' ∈ '-' :: t))
      · obtain ⟨u, hu⟩ := hc'
        have h1 : (g1 ++ s1 ++ g2 ++ w) ++ g3 = (xs ++ '-' :: u) ++ g3 := by
          calc (g1 ++ s1 ++ g2 ++ w) ++ g3 = xs ++ '-' :: t := hcl.symm
            _ = (xs ++ '-' :: u) ++ g3 := by
                rw [← hu]
                simp
        have heq2 : g1 ++ s1 ++ g2 ++ w = xs ++ '-' :: u :=
          List.append_inj_left' h1 rfl
        have hlastL : (g1 ++ s1 ++ g2 ++ w).getLast? = w.getLast? :=
          List.getLast?_append_of_ne_nil _ hwne
        have hlastR : (xs ++ '-' :: u).getLast? = ('-' :: u).getLast? :=
          List.getLast?_append_of_ne_nil _ (by simp)
        rcases List.eq_nil_or_concat w with rfl | ⟨w', cw, rfl⟩
        · exact hwne rfl
        · have hcw : isSpaceChar cw = true := hw cw (by simp)
          rcases List.eq_nil_or_concat u with rfl | ⟨u', cu, rfl⟩
          · have : (w'.concat cw).getLast? = some '-' := by
              rw [← hlastL, heq2, hlastR]
              simp
            rw [List.concat_eq_append, List.getLast?_concat] at this
            injection this with this
            rw [this] at hcw
            exact absurd hcw (by decide)
          · have hcu : isSpaceChar cu = false := by
              apply ht
              rw [← hu]
              apply List.mem_append_left
              simp
            have : (w'.concat cw).getLast? = ('-' :: u'.concat cu).getLast? := by
              rw [← hlastL, heq2, hlastR]
            rw [List.concat_eq_append, List.getLast?_concat] at this
            have h2 : ('-' :: u'.concat cu).getLast? = some cu := by
              rw [List.concat_eq_append, ← List.cons_append, List.getLast?_concat]
            rw [h2] at this
            injection this with this
            rw [this] at hcw
            rw [hcw] at hcu
            exact absurd hcu (by simp)
    · obtain ⟨u, hu⟩ := hc
      apply hnominus
      rw [← hu]
      apply List.mem_append_right
      simp

/-- On a pattern match followed by a successful conversion, the extractor
emits exactly the corresponding record and no diagnostic. -/
theorem extractRecord_eval (cl g1 g2 g3 : List Char) (n : Nat) (q : ℚ)
    (hm : dataPatternMatch cl = some (g1, g2, g3))
    (hp : parseAmount g3 = some q) :
    extractRecord cl n = (some ⟨g1, stripChars g2, q⟩, []) := by
  simp [extractRecord, hm, hp]

/-! ## The claims -/

/-- Claim C1: for the candidate line "3.1.1.1.01.04 VENCIMENTO BASICO 1.234,56",
the record extractor emits exactly one record, with classification
"3.1.1.1.01.04", description "VENCIMENTO BASICO" and amount 1234.56, and no
diagnostic, whatever the current line number. -/
theorem claim_c1 (n : Nat) :
    extractRecord "3.1.1.1.01.04 VENCIMENTO BASICO 1.234,56".toList n =
      (some { classificacao := "3.1.1.1.01.04".toList,
              denominacao := "VENCIMENTO BASICO".toList,
              valor := (1234.56 : ℚ) }, []) := by
  have hm : dataPatternMatch "3.1.1.1.01.04 VENCIMENTO BASICO 1.234,56".toList =
      some ("3.1.1.1.01.04".toList, "VENCIMENTO BASICO".toList, "1.234,56".toList) := by
    decide
  have hp : parseAmount "1.234,56".toList = some ((1234 : ℚ) + 56 / 10 ^ (2:ℕ)) := rfl
  have hq : ((1234 : ℚ) + 56 / 10 ^ (2:ℕ)) = 1234.56 := by norm_num
  have hstrip : stripChars "VENCIMENTO BASICO".toList = "VENCIMENTO BASICO".toList := by
    decide
  have h := extractRecord_eval _ _ _ _ n _ hm (by rw [hp, hq])
  rw [h, hstrip]

/-- Claim C10: a classification token and an amount token separated by two
spaces produce a record whose description is the empty string, while the same
tokens separated by a single space produce no record, because the pattern
needs whitespace on both sides of the lazy description group. -/
theorem claim_c10 :
    extractRecord "X  1.234,56".toList 1 =
      (some { classificacao := "X".toList, denominacao := [],
              valor := (1234.56 : ℚ) }, []) ∧
    extractRecord "X 1.234,56".toList 1 = (none, []) ∧
    dataPatternMatch "X 1.234,56".toList = none := by
  refine ⟨?_, by decide, by decide⟩
  have hm : dataPatternMatch "X  1.234,56".toList =
      some ("X".toList, [], "1.234,56".toList) := by decide
  have hp : parseAmount "1.234,56".toList = some ((1234 : ℚ) + 56 / 10 ^ (2:ℕ)) := rfl
  have hq : ((1234 : ℚ) + 56 / 10 ^ (2:ℕ)) = 1234.56 := by norm_num
  have h := extractRecord_eval _ _ _ _ 1 _ hm (by rw [hp, hq])
  rw [h]
  rfl

/-- Claim C6: a candidate line that does not match the anchored data pattern
produces no record and no diagnostic; in particular, a line whose trailing
amount token has a single fractional digit ("12,5"), or a non-numeric
trailing token ("X,XX"), fails the pattern as a whole and is discarded
silently. -/
theorem claim_c6 :
    (∀ (cl : List Char) (n : Nat), dataPatternMatch cl = none →
      extractRecord cl n = (none, [])) ∧
    dataPatternMatch "3.1.1.1.01.05 DESCONTO 12,5".toList = none ∧
    extractRecord "3.1.1.1.01.05 DESCONTO 12,5".toList 5 = (none, []) ∧
    dataPatternMatch "3.1.1.1.01.05 DESCONTO X,XX".toList = none ∧
    extractRecord "3.1.1.1.01.05 DESCONTO X,XX".toList 6 = (none, []) := by
  refine ⟨?_, by decide, by decide, by decide, by decide⟩
  intro cl n h
  simp [extractRecord, h]

/-- Witness for C6: a concrete line with no whitespace fails the pattern and
yields no record and no diagnostic. -/
theorem claim_c6_witness : extractRecord "abc".toList 2 = (none, []) :=
  claim_c6.1 "abc".toList 2 (by decide)

/-- Claim C2: the pipeline fails, with the no-data error message appended to
the accumulated diagnostics, exactly when the loop extracted zero records;
with at least one record it succeeds, returning the records and all
diagnostics.  No per-line anomaly influences this gate other than through the
extracted records. -/
theorem claim_c2 (ls : List (List Char)) :
    ((processLines ls).extractedData = [] →
      processarTexto ls =
        .err noDataMsg ((processLines ls).infoMessages ++ [noDataMsg])) ∧
    ((processLines ls).extractedData ≠ [] →
      processarTexto ls =
        .ok (processLines ls).extractedData
          ((processLines ls).infoMessages ++
            [doneMsg (processLines ls).extractedData.length])) := by
  constructor
  · intro h
    simp [processarTexto, h]
  · intro h
    simp [processarTexto, h]

/-- Witness for C2: a document with no lines fails with the no-data error
carrying the diagnostics, and a document with a header line and one data line
succeeds with the extracted records and diagnostics. -/
theorem claim_c2_witness :
    processarTexto [] =
      .err noDataMsg ((processLines []).infoMessages ++ [noDataMsg]) ∧
    processarTexto ["CLSF.CONTABIL DENOMINACAO / RUBRICA".toList,
                    "3.1 VENC 1,00".toList] =
      .ok (processLines ["CLSF.CONTABIL DENOMINACAO / RUBRICA".toList,
                         "3.1 VENC 1,00".toList]).extractedData
        ((processLines ["CLSF.CONTABIL DENOMINACAO / RUBRICA".toList,
                        "3.1 VENC 1,00".toList]).infoMessages ++
          [doneMsg (processLines ["CLSF.CONTABIL DENOMINACAO / RUBRICA".toList,
                                  "3.1 VENC 1,00".toList]).extractedData.length]) := by
  constructor
  · exact (claim_c2 []).1 (by decide)
  · exact (claim_c2 ["CLSF.CONTABIL DENOMINACAO / RUBRICA".toList,
      "3.1 VENC 1,00".toList]).2 (by decide)

/-- Claim C3: before any line has contained both header markers, no candidate
line is forwarded: with the section flag still unset, a stream whose lines
are all non-header yields no candidates at all, and for a stream made of
non-header lines, then a header line, then anything, the candidates are
exactly those of the remainder scanned inside the section — the preceding
lines are all discarded regardless of content and the header line itself is
not forwarded. -/
theorem claim_c3 :
    (∀ ls : List (List Char), (∀ l ∈ ls, isHeaderLine (stripChars l) = false) →
      scanLines false ls = []) ∧
    (∀ (pre : List (List Char)) (hdr : List Char) (post : List (List Char)),
      (∀ l ∈ pre, isHeaderLine (stripChars l) = false) →
      isHeaderLine (stripChars hdr) = true →
      scanLines false (pre ++ hdr :: post) = scanLines true post) := by
  constructor
  · intro ls h
    induction ls with
    | nil => rfl
    | cons l ls ih =>
      have hl : isHeaderLine (stripChars l) = false := h l (by simp)
      simp only [scanLines, hl]
      simp only [Bool.not_false, Bool.true_or, if_true, if_false]
      exact ih (fun x hx => h x (by simp [hx]))
  · intro pre hdr post hpre hhdr
    induction pre with
    | nil =>
      simp only [List.nil_append, scanLines, hhdr, if_true]
    | cons l pre ih =>
      have hl : isHeaderLine (stripChars l) = false := hpre l (by simp)
      simp only [List.cons_append, scanLines, hl]
      simp only [Bool.not_false, Bool.true_or, if_true, if_false]
      exact ih (fun x hx => hpre x (by simp [hx]))

/-- Witness for C3: a junk line before the header yields no candidates, and
with a header line in between, scanning equals in-section scanning of the
rest. -/
theorem claim_c3_witness :
    scanLines false ["lixo 1,00".toList] = [] ∧
    scanLines false (["lixo".toList] ++
        " CLSF.CONTABIL  DENOMINACAO / RUBRICA ".toList :: ["3.1 A 1,00".toList]) =
      scanLines true ["3.1 A 1,00".toList] := by
  constructor
  · exact claim_c3.1 ["lixo 1,00".toList] (by decide)
  · exact claim_c3.2 ["lixo".toList] " CLSF.CONTABIL  DENOMINACAO / RUBRICA ".toList
      ["3.1 A 1,00".toList] (by decide) (by decide)

/-- Claim C4: the section flag starts false, is monotone (once true, no line
resets it), and a header line seen while the flag is already true only
re-emits the section-started diagnostic and advances the line counter: the
flag stays true and the collected records are untouched. -/
theorem claim_c4 :
    initState.inDataSection = false ∧
    (∀ (st : LoopState) (l : List Char), st.inDataSection = true →
      (stepLine st l).inDataSection = true) ∧
    (∀ (st : LoopState) (l : List Char), isHeaderLine (stripChars l) = true →
      stepLine st l =
        { st with lineNumber := st.lineNumber + 1, inDataSection := true,
                  infoMessages := st.infoMessages ++ [sectionMsg (st.lineNumber + 1)] }) := by
  refine ⟨rfl, ?_, ?_⟩
  · intro st l h
    simp only [stepLine]
    split
    · rfl
    · split
      · exact h
      · split
        · exact h
        · exact h
  · intro st l h
    simp only [stepLine, h, if_true]

/-- Witness for C4: from a state inside the section holding one record, any
line keeps the flag set, and a repeated header line only appends the
diagnostic, preserving the record list. -/
theorem claim_c4_witness :
    (stepLine { inDataSection := true,
                extractedData := [{ classificacao := "3.1".toList,
                                    denominacao := "A".toList, valor := (1 : ℚ) }],
                infoMessages := [], lineNumber := 7 } "qualquer coisa".toList).inDataSection
        = true ∧
    stepLine { inDataSection := true,
               extractedData := [{ classificacao := "3.1".toList,
                                   denominacao := "A".toList, valor := (1 : ℚ) }],
               infoMessages := [], lineNumber := 7 }
        "CLSF.CONTABIL DENOMINACAO / RUBRICA".toList =
      { inDataSection := true,
        extractedData := [{ classificacao := "3.1".toList,
                            denominacao := "A".toList, valor := (1 : ℚ) }],
        infoMessages := [sectionMsg 8], lineNumber := 8 } := by
  constructor
  · exact claim_c4.2.1 _ _ rfl
  · exact (claim_c4.2.2 _ "CLSF.CONTABIL DENOMINACAO / RUBRICA".toList (by decide)).trans
      (by simp)

/-- Claim C7 (amended): inside the section, a line that is empty after
trimming, contains "---", starts with "***", contains "SIAPE, GERENCIAL" or
starts with "DATA:" is never forwarded as a candidate, and — unless it is
itself a header-marker line, which the header branch consumes with an Info
diagnostic — it is discarded silently: the loop state keeps its records and
messages unchanged and only the line counter advances.  Every other
non-header line inside the section is forwarded trimmed.  (A recurring
header line is the exception the original claim misses: it is never
forwarded, and its discard is not silent.) -/
theorem claim_c7 (l : List Char) :
    (discardLine (stripChars l) = true → scanLines true [l] = []) ∧
    (isHeaderLine (stripChars l) = false → discardLine (stripChars l) = true →
      ∀ st : LoopState, st.inDataSection = true →
        stepLine st l = { st with lineNumber := st.lineNumber + 1 }) ∧
    (isHeaderLine (stripChars l) = false → discardLine (stripChars l) = false →
      scanLines true [l] = [stripChars l]) := by
  refine ⟨?_, ?_, ?_⟩
  · intro hd
    by_cases hh : isHeaderLine (stripChars l) = true
    · simp [scanLines, hh]
    · simp [scanLines, hh, hd]
  · intro hh hd st hst
    simp [stepLine, hh, hd, hst]
  · intro hh hd
    simp [scanLines, hh, hd]

/-- Counterexample for C7 as frozen: a repeated header-marker line inside the
section meets none of the five discard conditions, yet it is not forwarded
as a candidate (the header branch takes precedence), refuting "every other
line inside the section is forwarded trimmed". -/
theorem claim_c7_counterexample :
    ¬ (∀ l : List Char, discardLine (stripChars l) = false →
        scanLines true [l] = [stripChars l]) := by
  intro h
  have := h "CLSF.CONTABIL DENOMINACAO / RUBRICA".toList (by decide)
  exact absurd this (by decide)

/-- Witness for C7: a footer line is dropped and, from a concrete in-section
state, its discard appends no message and touches no record — only the line
counter moves; an ordinary data line is forwarded trimmed. -/
theorem claim_c7_witness :
    scanLines true ["DATA: 01/01/2024".toList] = [] ∧
    stepLine { inDataSection := true, extractedData := [],
               infoMessages := [procMsg], lineNumber := 7 } "DATA: 01/01/2024".toList =
      { inDataSection := true, extractedData := [],
        infoMessages := [procMsg], lineNumber := 8 } ∧
    scanLines true ["  3.1 VENC 1,00  ".toList] = [stripChars "  3.1 VENC 1,00  ".toList] :=
  ⟨(claim_c7 "DATA: 01/01/2024".toList).1 (by decide),
   (claim_c7 "DATA: 01/01/2024".toList).2.1 (by decide) (by decide)
     { inDataSection := true, extractedData := [],
       infoMessages := [procMsg], lineNumber := 7 } rfl,
   (claim_c7 "  3.1 VENC 1,00  ".toList).2.2 (by decide) (by decide)⟩

/-- Claim C5 (amended): for every string of the amount shape (1-3 digits,
then groups of "." plus 3 digits, then "," plus 2 digits) whose integer part
carries no superfluous leading zero — its first digit is nonzero, or the
integer part is exactly "0" — parsing with the code's rule (strip ".", turn
"," into ".", read as a decimal) and reformatting the value with the same
locale rule reproduces the original string exactly.  (Leading-zero inputs
such as "012,34" are the only exceptions; see the counterexample.) -/
theorem claim_c5 (s : List Char) (h1 : isAmount s = true)
    (h2 : canonicalLead s = true) :
    ∃ q, parseAmount s = some q ∧ formatAmount q = s := by
  obtain ⟨L, gs, F, rfl, hL1, hL3, hLd, hgs, hF2, hFd⟩ := isAmount_decomp s h1
  refine ⟨_, parseAmount_shape L gs F hL1 hLd hgs hF2 hFd, ?_⟩
  have hlead := canonicalLead_decomp L gs F hL1 hLd h2
  have hvFlt : digitsVal F < 100 := by
    have h := digitsVal_lt F hFd
    rw [hF2] at h
    norm_num at h
    exact h
  have hq : (((digitsVal (L ++ gs.flatMap id) : ℚ) + (digitsVal F : ℚ) / 100) * 100).num.toNat
      = 100 * digitsVal (L ++ gs.flatMap id) + digitsVal F := by
    have hcast : ((digitsVal (L ++ gs.flatMap id) : ℚ) + (digitsVal F : ℚ) / 100) * 100
        = ((100 * digitsVal (L ++ gs.flatMap id) + digitsVal F : ℕ) : ℚ) := by
      push_cast
      ring
    rw [hcast, Rat.num_natCast, Int.toNat_ofNat]
  unfold formatAmount formatCents
  rw [hq]
  rw [show (100 * digitsVal (L ++ gs.flatMap id) + digitsVal F) / 100 =
      digitsVal (L ++ gs.flatMap id) from by omega]
  rw [show (100 * digitsVal (L ++ gs.flatMap id) + digitsVal F) % 100 =
      digitsVal F from by omega]
  rw [formatInt_groups gs L hL1 hL3 hLd hgs hlead]
  rw [pad2_digitsVal F hF2 hFd]

/-- Counterexample for C5 as frozen: "012,34" has the amount shape, but its
superfluous leading zero is lost by parsing, so reformatting yields "12,34",
not the original string.  The round trip therefore fails without a
no-leading-zero hypothesis. -/
theorem claim_c5_counterexample :
    ¬ (∀ s : List Char, isAmount s = true →
        ∀ q : ℚ, parseAmount s = some q → formatAmount q = s) := by
  intro h
  have hp : parseAmount "012,34".toList = some ((12 : ℚ) + 34 / 10 ^ (2:ℕ)) := rfl
  have hthis := h "012,34".toList (by decide) _ hp
  have h1 : (((12 : ℚ) + 34 / 10 ^ (2:ℕ)) * 100) = ((1234 : ℕ) : ℚ) := by
    push_cast
    norm_num
  have h2 : formatAmount ((12 : ℚ) + 34 / 10 ^ (2:ℕ)) = formatCents 1234 := by
    unfold formatAmount
    rw [h1, Rat.num_natCast, Int.toNat_ofNat]
  rw [h2] at hthis
  have h3 : formatCents 1234 = "12,34".toList := by decide
  rw [h3] at hthis
  exact absurd hthis (by decide)

/-- Witness for C5: the canonical amount "1.234,56" round-trips exactly. -/
theorem claim_c5_witness :
    ∃ q, parseAmount "1.234,56".toList = some q ∧
      formatAmount q = "1.234,56".toList :=
  claim_c5 "1.234,56".toList (by decide) (by decide)

/-- Claim C8: whenever the data pattern matches a candidate line, the numeric
conversion of the captured amount token always succeeds — the defensive
warning branch is unreachable — and a record is always produced, with no
diagnostic. -/
theorem claim_c8 (cl : List Char) (n : Nat) (g1 g2 g3 : List Char)
    (h : dataPatternMatch cl = some (g1, g2, g3)) :
    ∃ q, parseAmount g3 = some q ∧
      extractRecord cl n = (some ⟨g1, stripChars g2, q⟩, []) := by
  obtain ⟨s1, w, hcl, hg1ne, hg1s, hs1ne, hs1, hwne, hws, hAm⟩ :=
    dataPatternMatch_eq _ _ _ _ h
  obtain ⟨L, gs, F, hEq, hL1, hL3, hLd, hgs, hF2, hFd⟩ := isAmount_decomp g3 hAm
  have hp : parseAmount g3 =
      some ((digitsVal (L ++ gs.flatMap id) : ℚ) + (digitsVal F : ℚ) / 100) := by
    rw [hEq]
    exact parseAmount_shape L gs F hL1 hLd hgs hF2 hFd
  exact ⟨_, hp, extractRecord_eval _ _ _ _ n _ h hp⟩

/-- Witness for C8: on "A B 1,00" the pattern matches and the conversion
succeeds, producing a record and no warning. -/
theorem claim_c8_witness :
    ∃ q, parseAmount "1,00".toList = some q ∧
      extractRecord "A B 1,00".toList 4 =
        (some ⟨"A".toList, stripChars "B".toList, q⟩, []) :=
  claim_c8 "A B 1,00".toList 4 "A".toList "B".toList "1,00".toList (by decide)

/-- Claim C9: every record the extractor emits has a nonnegative amount, and
a line whose trailing token carries a "-" anywhere strictly before its final
whitespace-free stretch — in particular a leading minus sign on the amount —
never matches the pattern, so no record is emitted for it. -/
theorem claim_c9 :
    (∀ (cl : List Char) (n : Nat) (r : PayrollRecord) (ds : List String),
      extractRecord cl n = (some r, ds) → 0 ≤ r.valor) ∧
    (∀ (xs t : List Char) (n : Nat), (∀ c ∈ t, isSpaceChar c = false) →
      dataPatternMatch (xs ++ '-' :: t) = none ∧
      extractRecord (xs ++ '-' :: t) n = (none, [])) := by
  constructor
  · intro cl n r ds h
    simp only [extractRecord] at h
    split at h
    · exact absurd h (by simp)
    · split at h
      · rename_i v hv
        rw [Prod.mk.injEq] at h
        obtain ⟨h1, h2⟩ := h
        injection h1 with h1
        rw [← h1]
        exact parseAmount_nonneg _ v hv
      · exact absurd h (by simp)
  · intro xs t n ht
    have hm := minus_no_match xs t ht
    exact ⟨hm, by simp [extractRecord, hm]⟩

/-- Witness for C9: the record extracted from "X  1.234,56" has a
nonnegative amount, and "ABC DESC -1,00" (minus-signed amount) matches
nothing. -/
theorem claim_c9_witness :
    (0 : ℚ) ≤ (1234 : ℚ) + 56 / 10 ^ (2:ℕ) ∧
    dataPatternMatch ("ABC DESC ".toList ++ '-' :: "1,00".toList) = none := by
  constructor
  · exact claim_c9.1 "X  1.234,56".toList 1
      ⟨"X".toList, [], (1234 : ℚ) + 56 / 10 ^ (2:ℕ)⟩ []
      (extractRecord_eval "X  1.234,56".toList "X".toList [] "1.234,56".toList 1
        ((1234 : ℚ) + 56 / 10 ^ (2:ℕ)) (by decide) rfl)
  · exact (claim_c9.2 "ABC DESC ".toList "1,00".toList 3 (by decide)).1
